import Mathlib

/-
Verification development for the paper-ingestion pipeline of the
research-paper-recommender repository.  The definitions below are a
shallow embedding of src/src/ingestion/ingestion_pipeline.py,
src/src/ingestion/semantic_scholar_client.py,
src/src/ingestion/arxiv_client.py and src/src/ingestion/paper_parser.py.
External collaborators (the arXiv and Semantic Scholar HTTP APIs, the
file system, the Supabase store, the LLM enrichment service) are modelled
as oracle functions collected in an Env structure; all control-flow,
filtering, deduplication and edge-recording logic of the pipeline itself
is translated directly from the Python source.
-/

namespace Ingestion

/-- Python expression pid.split("v")[0]: the prefix of the string before
the first occurrence of the character v.  This is the version-stripping
operation used by deduplicate_papers, fetch_metadata and
get_existing_arxiv_ids. -/
def takeUntilV : List Char → List Char
  | [] => []
  | c :: rest => if c = 'v' then [] else c :: takeUntilV rest

def stripVersion (s : String) : String := String.mk (takeUntilV s.data)

/-- Python str.strip(): drop leading and trailing whitespace. -/
def pyStrip (s : String) : String :=
  String.mk (((s.data.dropWhile Char.isWhitespace).reverse.dropWhile Char.isWhitespace).reverse)

/-- Python str.replace with single-character arguments, as used for
result.summary.replace in fetch_metadata. -/
def replaceChar (old new : Char) (s : String) : String :=
  String.mk (s.data.map (fun c => if c = old then new else c))

/-- Assignment d[k] = v on a Python dict modelled as an association list:
replace the value of the first matching key in place, else append. -/
def dictInsert (k : String) (v : α) : List (String × α) → List (String × α)
  | [] => [(k, v)]
  | (k1, v1) :: rest => if k1 = k then (k, v) :: rest else (k1, v1) :: dictInsert k v rest

/-- Lookup d[k] on a Python dict modelled as an association list. -/
def dictLookup : List (String × α) → String → Option α
  | [], _ => none
  | (k1, v1) :: rest, k => if k1 = k then some v1 else dictLookup rest k

def dictKeys (d : List (String × α)) : List String := d.map (·.1)

/-- Number of edges in the accumulated citation-link map whose stored
value (the frontier source paper) equals a. -/
def countSource (a : String) (cl : List (String × String)) : Nat :=
  (cl.filter (fun e => e.2 = a)).length

/-! ## Semantic Scholar client (semantic_scholar_client.py) -/

/-- A transport failure of one HTTP attempt (requests.RequestException,
including raise_for_status errors). -/
inductive S2Error
  | requestException
deriving DecidableEq, Repr

/-- retry_request: attempts 1 .. max_retries; a successful attempt
returns immediately, a failing attempt before the last one is retried,
the last failing attempt re-raises.  When the attempt list is empty
(max_retries = 0) Python falls off the loop and returns None, modelled
by ok none. -/
def retryLoop (attempts : Nat → Except S2Error α) : List Nat → Except S2Error (Option α)
  | [] => Except.ok none
  | a :: rest =>
    match attempts a with
    | Except.ok r => Except.ok (some r)
    | Except.error e => if rest.isEmpty then Except.error e else retryLoop attempts rest

def retry_request (attempts : Nat → Except S2Error α) (max_retries : Nat := 5) :
    Except S2Error (Option α) :=
  retryLoop attempts (List.range' 1 max_retries)

/-- One entry of the citations or references array of the Semantic
Scholar paper payload, restricted to the fields the pipeline reads.
arxivId is the ArXiv external id (absent or null collapse to none;
extract_paper_info treats both as falsy), title none models an absent
title key (defaulted to the string N/A by extract_paper_info). -/
structure RawEntry where
  arxivId : Option String
  title : Option String
deriving DecidableEq, Repr

/-- The parsed JSON body returned by fetch_paper_data. -/
structure S2PaperJson where
  title : String
  references : List RawEntry
  citations : List RawEntry
deriving DecidableEq, Repr

/-- The parsed JSON body returned for the metadata query of
get_paper_metadata, restricted to the fields the pipeline reads:
title none models an absent title key (defaulted to N/A), authors is
the list of author names (the author-metrics subquery only adds
hIndex and citationCount, which no claim depends on). -/
structure S2MetaJson where
  title : Option String
  authors : List String
deriving DecidableEq, Repr

/-- The dictionary returned by get_paper_metadata on success. -/
structure S2Meta where
  title : String
  authors : List String
deriving DecidableEq, Repr

/-- One standardized entry produced by extract_paper_info: only entries
with a truthy arxivId are kept, and the title key defaults to N/A. -/
structure CitEntry where
  arxivId : String
  title : String
deriving DecidableEq, Repr

/-- extract_paper_info: keep entries whose ArXiv external id is present
and non-empty, standardize the title, and stop once max_results entries
have been accepted. -/
def extract_paper_info (papers : List RawEntry) (max_results : Nat := 100) : List CitEntry :=
  (papers.filterMap (fun p =>
    match p.arxivId with
    | some s => if s ≠ "" then some { arxivId := s, title := p.title.getD "N/A" } else none
    | none => none)).take max_results

/-- fetch_paper_data: retry the request; any raised error (or a None
response) is caught and degraded to an empty dict, modelled as none. -/
def fetch_paper_data (attempts : Nat → Except S2Error S2PaperJson) : Option S2PaperJson :=
  match retry_request attempts 5 with
  | Except.ok (some d) => some d
  | _ => none

/-- get_paper_metadata: retry the metadata request; on any failure the
broad except clause returns an empty dict, modelled as none. -/
def get_paper_metadata (attempts : Nat → Except S2Error S2MetaJson) : Option S2Meta :=
  match retry_request attempts 5 with
  | Except.ok (some j) => some { title := j.title.getD "N/A", authors := j.authors }
  | _ => none

/-- get_cited_papers: empty data (the Python function returns an empty
dict, which the caller iterates as an empty sequence) when the fetch
fails or the references array is missing or empty. -/
def get_cited_papers (attempts : Nat → Except S2Error S2PaperJson) : List CitEntry :=
  match fetch_paper_data attempts with
  | none => []
  | some d => if d.references.isEmpty then [] else extract_paper_info d.references 100

/-- get_citing_papers: like get_cited_papers, over the citations array. -/
def get_citing_papers (attempts : Nat → Except S2Error S2PaperJson) : List CitEntry :=
  match fetch_paper_data attempts with
  | none => []
  | some d => if d.citations.isEmpty then [] else extract_paper_info d.citations 100

/-! ## Bibliography extraction (paper_parser.py, method _extract_citations)

The three bibliography tiers operate on the citation files accompanying
a paper and on the LaTeX body.  The textual parsing performed by
bibtexparser and by the regular expressions is external text
processing; each file is therefore carried together with its parse
outcome, while the tier selection logic, the per-entry filtering and
the ordering are translated from the source. -/

inductive FileKind
  | bib
  | bbl
  | other
deriving DecidableEq, Repr

/-- One entry of a parsed structured bibliography file (bibtexparser):
the ID field and the title field, both defaulting to the empty string
when absent. -/
structure BibEntry where
  id : String
  title : String
deriving DecidableEq, Repr

/-- One entry recovered from a bbl file by the positional grammar:
cite key plus optional author block, title block and year. -/
structure BblEntry where
  key : String
  authors : Option String
  title : Option String
  year : Option String
deriving DecidableEq, Repr

/-- A citation file of the paper: its name kind, whether it exists on
disk, and the outcome of parsing it with the matching parser (none
models a raised parse exception, which the source logs and skips). -/
structure CitFile where
  kind : FileKind
  existsOnDisk : Bool
  bibParse : Option (List BibEntry)
  bblParse : Option (List BblEntry)
deriving DecidableEq, Repr

/-- One bibitem match found inside an inline thebibliography
environment: the cite key and the first brace-group title match inside
the entry body, when one exists. -/
structure InlineEntry where
  key : String
  titleMatch : Option String
deriving DecidableEq, Repr

/-- A citation record as accumulated by _extract_citations.  Tier-1 and
tier-3 records carry only key and title; tier-2 records also carry
authors and year. -/
structure Citation where
  key : String
  title : Option String := none
  authors : Option String := none
  year : Option String := none
deriving DecidableEq, Repr

/-- Tier 1: parse every existing structured bib file and keep entries
whose stripped title is non-empty. -/
def tier1Citations (files : List CitFile) : List Citation :=
  files.foldl (fun acc f =>
    if f.kind = FileKind.bib ∧ f.existsOnDisk then
      match f.bibParse with
      | some entries =>
        entries.foldl (fun a e =>
          let t := pyStrip e.title
          if t ≠ "" then a ++ [{ key := e.id, title := some t }] else a) acc
      | none => acc
    else acc) []

/-- Tier 2: parse every existing bbl file with the positional grammar
and keep all recovered entries. -/
def tier2Citations (files : List CitFile) : List Citation :=
  files.foldl (fun acc f =>
    if f.kind = FileKind.bbl ∧ f.existsOnDisk then
      match f.bblParse with
      | some entries =>
        acc ++ entries.map (fun e =>
          { key := e.key, authors := e.authors, title := e.title, year := e.year })
      | none => acc
    else acc) []

/-- Tier 3: when the LaTeX body contains a thebibliography environment
(inline some), keep every bibitem whose body yields a title match. -/
def tier3Citations (inline : Option (List InlineEntry)) : List Citation :=
  match inline with
  | some entries =>
    entries.foldl (fun a e =>
      match e.titleMatch with
      | some t => a ++ [{ key := e.key, title := some (pyStrip t) }]
      | none => a) []
  | none => []

/-- _extract_citations: the citations list starts from tier 1; the
tier-2 block runs only when it is still empty, and the tier-3 scan of
the LaTeX body runs only when it is still empty after tier 2. -/
def extract_citations (files : List CitFile) (inline : Option (List InlineEntry)) :
    List Citation :=
  let citations := tier1Citations files
  let citations := if citations.isEmpty then tier2Citations files else citations
  if citations.isEmpty then tier3Citations inline else citations

/-! ## Ingestion pipeline (ingestion_pipeline.py, class IngestionPipeline) -/

/-- An external call recorded while the pipeline runs: one bulk
existing-ID query of the Supabase store (issued by deduplicate_papers)
or one source download attempt (issued by download_and_extract for each
id in the current paper id list). -/
inductive Event
  | dedupQuery
  | download (id : String)
deriving DecidableEq, BEq, Repr

/-- One paper record as accumulated by the pipeline, restricted to the
fields the claims mention.  keywords, domain and summary are set only
by the enrichment stage. -/
structure Paper where
  paper_id : String
  title : String
  abstract : String
  sections : List (String × String)
  authors : List String
  keywords : Option (List String) := none
  domain : Option String := none
  summary : Option String := none
deriving DecidableEq, Repr

/-- The mutable instance state of IngestionPipeline that the claims
depend on, plus the trace of recorded external calls. -/
structure PState where
  paper_ids : List String
  papers : List Paper
  citation_link : List (String × String)
  final_tex_files : List (String × Nat)
  trace : List Event
deriving Repr

/-- The result of the arXiv metadata query for one requested id:
title and summary of the returned result. -/
structure ArxivResult where
  title : String
  summary : String
deriving DecidableEq, Repr

/-- The outcome of one LLM enrichment workflow call. -/
structure EnrichResult where
  keywords : List String
  domain : String
  summary : String
deriving DecidableEq, Repr

/-- The external collaborators of one pipeline run: the seed id list
returned by the arXiv search, the Supabase store snapshot, the file
system and document source, the per-id per-attempt Semantic Scholar
responses, the title search of arxiv_client.search_by_title (which
swallows every error into none), the section parse outcome per paper
id, and the enrichment service. -/
structure Env where
  seed_ids : List String
  existing_ids : List String
  downloadOk : String → Bool
  extractOk : String → Bool
  texCount : String → Nat
  arxivMeta : String → Option ArxivResult
  s2MetaAttempts : String → Nat → Except S2Error S2MetaJson
  s2Attempts : String → Nat → Except S2Error S2PaperJson
  searchByTitle : String → Option String
  parseSections : String → Option (List (String × String))
  enrich : String → String → EnrichResult

/-- The metadata dictionary the pipeline receives for one id from the
Semantic Scholar client. -/
def envPaperMetadata (env : Env) (id : String) : Option S2Meta :=
  get_paper_metadata (env.s2MetaAttempts id)

/-- The cited-papers list the pipeline receives for one frontier id. -/
def envCitedPapers (env : Env) (id : String) : List CitEntry :=
  get_cited_papers (env.s2Attempts id)

/-- The citing-papers list the pipeline receives for one frontier id. -/
def envCitingPapers (env : Env) (id : String) : List CitEntry :=
  get_citing_papers (env.s2Attempts id)

/-- deduplicate_papers: query the store once for the set of stored base
ids and keep only paper ids whose version-stripped form is not in it. -/
def deduplicate_papers (env : Env) (st : PState) : PState :=
  { st with
    paper_ids := st.paper_ids.filter
      (fun pid => decide (stripVersion pid ∉ env.existing_ids)),
    trace := st.trace ++ [Event.dedupQuery] }

/-- download_and_extract: attempt a source download for every id in the
list and keep the ids whose download and archive extraction both
succeed. -/
def download_and_extract (env : Env) (st : PState) : PState :=
  { st with
    paper_ids := st.paper_ids.filter (fun id => env.downloadOk id && env.extractOk id),
    trace := st.trace ++ st.paper_ids.map Event.download }

/-- organize_files: reset the tex-file dictionary, record the file info
of every id with at least one tex file, and keep only those ids. -/
def organize_files (env : Env) (st : PState) : PState :=
  { st with
    final_tex_files := st.paper_ids.foldl
      (fun acc id => if env.texCount id > 0 then dictInsert id (env.texCount id) acc else acc) [],
    paper_ids := st.paper_ids.filter (fun id => env.texCount id > 0) }

/-- The authors value the merged paper dictionary carries after
paper_data.update: the author list of the Semantic Scholar metadata
when the metadata call succeeded, else absent (falsy), modelled as the
empty list. -/
def s2Authors (env : Env) (base : String) : List String :=
  match envPaperMetadata env base with
  | some sm => sm.authors
  | none => []

/-- The title value the merged paper dictionary carries after
paper_data.update: the Semantic Scholar title when the metadata call
succeeded (it overwrites the arXiv title), else the arXiv title. -/
def s2Title (env : Env) (base : String) (fallback : String) : String :=
  match envPaperMetadata env base with
  | some sm => sm.title
  | none => fallback

/-- One iteration of the result loop of fetch_metadata: build the paper
dictionary from the arXiv result for the requested id, merge in the
Semantic Scholar metadata (which overwrites the title and supplies the
authors), then admit the paper unless the tex-file lookup raises
KeyError, the tex count is below one, the arXiv title is empty or the
authors value is falsy. -/
def fetchMetaStep (env : Env) (ftf : List (String × Nat))
    (acc : List Paper × List String) (rm : String × ArxivResult) :
    List Paper × List String :=
  match dictLookup ftf (stripVersion rm.1) with
  | none => acc
  | some cnt =>
    if cnt < 1 ∨ rm.2.title = "" ∨ s2Authors env (stripVersion rm.1) = [] then acc
    else
      (acc.1 ++ [{ paper_id := stripVersion rm.1,
                   title := s2Title env (stripVersion rm.1) rm.2.title,
                   abstract := pyStrip (replaceChar '\n' ' ' rm.2.summary),
                   sections := [],
                   authors := s2Authors env (stripVersion rm.1) }],
       acc.2 ++ [stripVersion rm.1])

/-- fetch_metadata: query arXiv for the current id list (one result per
requested id that resolves, in order), run fetchMetaStep over the
results, append the admitted papers and replace the id list by the
admitted base ids. -/
def fetch_metadata (env : Env) (st : PState) : PState :=
  let results := st.paper_ids.filterMap (fun r => (env.arxivMeta r).map (fun m => (r, m)))
  let folded := results.foldl (fetchMetaStep env st.final_tex_files) ([], [])
  { st with papers := st.papers ++ folded.1, paper_ids := folded.2 }

/-- process_files: keep only ids that still have a tex-file record. -/
def process_files (st : PState) : PState :=
  { st with
    paper_ids := st.paper_ids.filter (fun id => (dictLookup st.final_tex_files id).isSome) }

/-- One iteration of parse_papers: parse the tex file of the paper; the
paper survives when parsing succeeds and the extracted section mapping
is non-empty. -/
def parseStep (env : Env) (acc : List Paper × List String) (p : Paper) :
    List Paper × List String :=
  match env.parseSections p.paper_id with
  | some secs =>
    if secs.isEmpty then acc
    else (acc.1 ++ [{ p with sections := secs }], acc.2 ++ [p.paper_id])
  | none => acc

/-- parse_papers: rebuild the paper list and the id list from the
papers whose parse yields non-empty sections. -/
def parse_papers (env : Env) (st : PState) : PState :=
  let folded := st.papers.foldl (parseStep env) ([], [])
  { st with papers := folded.1, paper_ids := folded.2 }

/-- One citation candidate of the inner loop shared by
process_cited_papers and process_citing_papers.  a is the id of the
current frontier paper, ids is the restored original paper id list.
The accumulator carries the citation-link dictionary and the list of
accepted candidates (id and title).  A candidate with a truthy arxivId
not in ids is accepted directly; otherwise a candidate with a truthy
title is resolved through the arXiv title search and accepted when the
resolved id is truthy and not in ids. -/
def processCitation (env : Env) (a : String) (ids : List String)
    (acc : List (String × String) × List (String × String)) (c : CitEntry) :
    List (String × String) × List (String × String) :=
  if c.arxivId ≠ "" ∧ c.arxivId ∉ ids then
    (dictInsert c.arxivId a acc.1, acc.2 ++ [(c.arxivId, c.title)])
  else if c.title = "" then acc
  else
    match env.searchByTitle c.title with
    | some s =>
      if s ≠ "" ∧ s ∉ ids then (dictInsert s a acc.1, acc.2 ++ [(s, c.title)]) else acc
    | none => acc

/-- One iteration of the frontier loop shared by process_cited_papers
and process_citing_papers: fetch the citation list of the frontier
paper, overwrite the id list with the candidate ids, run the
deduplication gate, keep only candidates that survived it, restore the
original id list and run the inner candidate loop over the first
max_extensions survivors. -/
def processFrontierPaper (fetchRel : String → List CitEntry) (env : Env)
    (original : List String) (max_extensions : Nat)
    (acc : PState × List (String × String)) (paper : Paper) :
    PState × List (String × String) :=
  let st := acc.1
  let a := paper.paper_id
  let citations := fetchRel a
  let st1 := { st with paper_ids := citations.map (·.arxivId) }
  let st2 := deduplicate_papers env st1
  let citations2 := citations.filter (fun c => st2.paper_ids.contains c.arxivId)
  let st3 := { st2 with paper_ids := original }
  let folded := (citations2.take max_extensions).foldl
    (processCitation env a original) (st3.citation_link, acc.2)
  ({ st3 with citation_link := folded.1 }, folded.2)

/-- The tail of the frontier methods: when any candidates were
accepted, run the full single-paper sub-pipeline on their id list,
starting from the cleared paper list. -/
def hopSub (env : Env) (st2 : PState) (cited : List (String × String)) : PState :=
  if cited.isEmpty then st2
  else
    parse_papers env (process_files (fetch_metadata env (organize_files env
      (download_and_extract env { st2 with paper_ids := cited.map (·.1) }))))

/-- The body shared verbatim by process_cited_papers and
process_citing_papers (the two Python methods differ only in the
citation fetcher they call): run the frontier loop, then, when any
candidates were accepted, run the full single-paper sub-pipeline on
them, and finally restore the original id list and merge the surviving
new papers behind the saved frontier papers. -/
def processLinkedPapers (fetchRel : String → List CitEntry) (env : Env)
    (st : PState) (max_extensions : Nat) : PState :=
  let folded := st.papers.foldl
    (processFrontierPaper fetchRel env st.paper_ids max_extensions) (st, [])
  let st3 := hopSub env { folded.1 with papers := [] } folded.2
  { st3 with paper_ids := st.paper_ids, papers := folded.1.papers ++ st3.papers }

/-- The citation entries of one frontier paper that survive the
deduplication gate, as computed inside processFrontierPaper through the
temporary overwrite of the paper id list. -/
def survivingCitations (f : String → List CitEntry) (env : Env) (a : String) :
    List CitEntry :=
  (f a).filter (fun c =>
    (((f a).map (·.arxivId)).filter
      (fun pid => decide (stripVersion pid ∉ env.existing_ids))).contains c.arxivId)

/-- process_cited_papers: backward expansion over the references of
each frontier paper. -/
def process_cited_papers (env : Env) (st : PState) (max_extensions : Nat) : PState :=
  processLinkedPapers (envCitedPapers env) env st max_extensions

/-- process_citing_papers: forward expansion over the citations of each
frontier paper. -/
def process_citing_papers (env : Env) (st : PState) (max_extensions : Nat) : PState :=
  processLinkedPapers (envCitingPapers env) env st max_extensions

/-- Conditional write of the keywords field of a paper. -/
def enrichKeywords (m : EnrichResult) (p : Paper) : Paper :=
  if m.keywords ≠ [] then { p with keywords := some m.keywords } else p

/-- Conditional write of the domain field of a paper. -/
def enrichDomain (m : EnrichResult) (p : Paper) : Paper :=
  if m.domain ≠ "" then { p with domain := some m.domain } else p

/-- Conditional write of the summary field of a paper. -/
def enrichSummary (m : EnrichResult) (p : Paper) : Paper :=
  if m.summary ≠ "" then { p with summary := some m.summary } else p

/-- The per-paper body of enrich_paper_metadata: papers with a falsy id,
title or abstract are left unchanged; otherwise each truthy field of
the enrichment result is written onto the paper, in the order keywords,
domain, summary. -/
def enrichOne (env : Env) (p : Paper) : Paper :=
  if p.paper_id = "" then p
  else if p.title = "" ∨ p.abstract = "" then p
  else
    enrichSummary (env.enrich p.title p.abstract)
      (enrichDomain (env.enrich p.title p.abstract)
        (enrichKeywords (env.enrich p.title p.abstract) p))

/-- enrich_paper_metadata over the whole paper list. -/
def enrich_paper_metadata (env : Env) (st : PState) : PState :=
  { st with papers := st.papers.map (enrichOne env) }

/-- run_pipeline: the stage sequence of IngestionPipeline.run_pipeline,
with fetch_papers delivering the seed ids of the environment. -/
def run_pipeline (env : Env) (max_extentions : Nat := 5) : PState :=
  let st : PState :=
    { paper_ids := env.seed_ids, papers := [], citation_link := [],
      final_tex_files := [], trace := [] }
  let st := deduplicate_papers env st
  let st := download_and_extract env st
  let st := organize_files env st
  let st := fetch_metadata env st
  let st := process_files st
  let st := parse_papers env st
  let st := process_cited_papers env st max_extentions
  let st := process_citing_papers env st max_extentions
  enrich_paper_metadata env st

/-- One record written by save_papers: either one paper record or the
single trailing record holding the citation-edge map. -/
inductive Record
  | paper (p : Paper)
  | links (cl : List (String × String))
deriving DecidableEq, Repr

/-- The sequence of records save_papers writes at the end of
run_pipeline: one record per paper, then the trailing citation_links
record. -/
def saved_records (env : Env) (max_entions : Nat := 5) : List Record :=
  (run_pipeline env max_entions).papers.map Record.paper ++
    [Record.links (run_pipeline env max_entions).citation_link]

/-! ## Concrete environments used as test inputs

baseEnv is a happy-path world: one seed paper A, empty store, every
download, extraction and parse succeeding, no citation data.  The
per-claim environments override the citation data and failure modes. -/

def baseEnv : Env :=
  { seed_ids := ["A"]
    existing_ids := []
    downloadOk := fun _ => true
    extractOk := fun _ => true
    texCount := fun _ => 1
    arxivMeta := fun id =>
      if id = "A" then some { title := "TA", summary := "SA" } else none
    s2MetaAttempts := fun _ _ => Except.ok { title := some "t", authors := ["au"] }
    s2Attempts := fun _ _ => Except.ok { title := "T", references := [], citations := [] }
    searchByTitle := fun _ => none
    parseSections := fun _ => some [("intro", "body")]
    enrich := fun _ _ => { keywords := [], domain := "", summary := "" } }

/-- World for claim C1: seed A cites X and is cited by X, so X is
admitted once by the backward hop and once more by the forward hop. -/
def envDupRun : Env :=
  { baseEnv with
    arxivMeta := fun id =>
      if id = "A" then some { title := "TA", summary := "SA" }
      else if id = "X" then some { title := "TX", summary := "SX" }
      else none
    s2Attempts := fun id _ =>
      if id = "A" then
        Except.ok { title := "TA",
                    references := [{ arxivId := some "X", title := some "tx" }],
                    citations := [{ arxivId := some "X", title := some "tx" }] }
      else Except.ok { title := "T", references := [], citations := [] } }

/-- World for claim C2: seed A cites X; the citing list the provider
returns for X contains X itself, so the forward hop records a
self-edge for the non-seed frontier paper X. -/
def envSelfEdge : Env :=
  { baseEnv with
    arxivMeta := fun id =>
      if id = "A" then some { title := "TA", summary := "SA" }
      else if id = "X" then some { title := "TX", summary := "SX" }
      else none
    s2Attempts := fun id _ =>
      if id = "A" then
        Except.ok { title := "TA",
                    references := [{ arxivId := some "X", title := some "tx" }],
                    citations := [] }
      else if id = "X" then
        Except.ok { title := "TX", references := [],
                    citations := [{ arxivId := some "X", title := some "tx" }] }
      else Except.ok { title := "T", references := [], citations := [] } }

/-- World for claim C3: seed A cites X, X fails its document download,
so X never reaches the paper set although its edge was recorded. -/
def envDroppedTarget : Env :=
  { baseEnv with
    downloadOk := fun id => id = "A"
    s2Attempts := fun id _ =>
      if id = "A" then
        Except.ok { title := "TA",
                    references := [{ arxivId := some "X", title := some "tx" }],
                    citations := [] }
      else Except.ok { title := "T", references := [], citations := [] } }

/-- A parsed frontier paper used to build concrete hop states. -/
def paperA : Paper :=
  { paper_id := "A", title := "TA", abstract := "SA",
    sections := [("s", "b")], authors := ["au"] }

/-- A second parsed frontier paper. -/
def paperB : Paper :=
  { paper_id := "B", title := "TB", abstract := "SB",
    sections := [("s", "b")], authors := ["au"] }

/-- Hop state for claim C5: frontier of two parsed papers A and B. -/
def stTwoSeeds : PState :=
  { paper_ids := ["A", "B"], papers := [paperA, paperB], citation_link := [],
    final_tex_files := [("A", 1), ("B", 1)], trace := [] }

/-- World for claim C5: both frontier papers cite the same new paper X,
so one backward hop issues two dedup-gate queries and downloads X
twice. -/
def envSharedCandidate : Env :=
  { baseEnv with
    seed_ids := ["A", "B"]
    arxivMeta := fun id =>
      if id = "X" then some { title := "TX", summary := "SX" } else none
    s2Attempts := fun id _ =>
      if id = "A" ∨ id = "B" then
        Except.ok { title := "T",
                    references := [{ arxivId := some "X", title := some "tx" }],
                    citations := [] }
      else Except.ok { title := "T", references := [], citations := [] } }

/-- World for claim C6: the only edge of the run comes from the forward
hop, which admits the citing paper Y for the seed frontier paper A. -/
def envForwardEdge : Env :=
  { baseEnv with
    arxivMeta := fun id =>
      if id = "A" then some { title := "TA", summary := "SA" }
      else if id = "Y" then some { title := "TY", summary := "SY" }
      else none
    s2Attempts := fun id _ =>
      if id = "A" then
        Except.ok { title := "TA", references := [],
                    citations := [{ arxivId := some "Y", title := some "ty" }] }
      else Except.ok { title := "T", references := [], citations := [] } }

/-- World for claim C7: the metadata provider returns an empty title
(overwriting the non-empty arXiv title) and the arXiv summary is empty,
yet the paper passes the admission checks. -/
def envEmptyFields : Env :=
  { baseEnv with
    arxivMeta := fun id =>
      if id = "A" then some { title := "TA", summary := "" } else none
    s2MetaAttempts := fun _ _ => Except.ok { title := some "", authors := ["au"] } }

/-- Hop state with a single parsed frontier paper A, used by several
witnesses. -/
def stOneSeed : PState :=
  { paper_ids := ["A"], papers := [paperA], citation_link := [],
    final_tex_files := [("A", 1)], trace := [] }

/-- Citation files for the C8 witness: a structured bib file whose only
entry has a blank title (tier 1 yields zero citations) and a bbl file
with one parsed entry (tier 2 yields one citation). -/
def filesTier2 : List CitFile :=
  [{ kind := FileKind.bib, existsOnDisk := true,
     bibParse := some [{ id := "k0", title := "   " }], bblParse := none },
   { kind := FileKind.bbl, existsOnDisk := true, bibParse := none,
     bblParse := some [{ key := "k1", authors := some "Doe, J.",
                         title := some "Some Paper", year := some "2020" }] }]

/-- An inline bibliography that tier 3 would extract, present to show
that it is not consulted. -/
def inlineTier3 : Option (List InlineEntry) :=
  some [{ key := "k2", titleMatch := some "Inline Title" }]

/-- The paper record produced for seed A by a run over baseEnv: the
title t comes from the metadata provider (it overwrites the arXiv
title), the abstract from the arXiv summary. -/
def paperRunA : Paper :=
  { paper_id := "A", title := "t", abstract := "SA",
    sections := [("intro", "body")], authors := ["au"] }

/-- The paper record produced for seed A by a run over the empty-fields
world: its title and abstract are both empty, its sections are not. -/
def paperEmptyA : Paper :=
  { paper_id := "A", title := "", abstract := "",
    sections := [("intro", "body")], authors := ["au"] }

/-- An attempt oracle whose every metadata request raises. -/
def failAttemptsMeta : Nat → Except S2Error S2MetaJson :=
  fun _ => Except.error S2Error.requestException

/-- An attempt oracle whose every paper-data request raises. -/
def failAttemptsData : Nat → Except S2Error S2PaperJson :=
  fun _ => Except.error S2Error.requestException

/-! ## Generic fold lemmas -/

theorem foldl_invariant {α β : Type _} (step : α → β → α) (P : α → Prop)
    (h : ∀ acc b, P acc → P (step acc b)) :
    ∀ (l : List β) (acc : α), P acc → P (l.foldl step acc) := by
  intro l
  induction l with
  | nil => intro acc hp; exact hp
  | cons b t ih => intro acc hp; exact ih _ (h _ _ hp)

theorem foldl_invariant_mem {α β : Type _} (step : α → β → α) (P : α → Prop) :
    ∀ (l : List β), (∀ acc b, b ∈ l → P acc → P (step acc b)) →
      ∀ (acc : α), P acc → P (l.foldl step acc) := by
  intro l
  induction l with
  | nil => intro _ acc hp; exact hp
  | cons b t ih =>
    intro h acc hp
    exact ih (fun acc2 b2 hb2 => h acc2 b2 (List.mem_cons_of_mem _ hb2)) _
      (h acc b (List.mem_cons_self _ _) hp)

theorem foldl_growth {α β : Type _} (m : α → Nat) (step : α → β → α)
    (h : ∀ acc b, m (step acc b) ≤ m acc + 1) :
    ∀ (l : List β) (acc : α), m (l.foldl step acc) ≤ m acc + l.length := by
  intro l
  induction l with
  | nil => intro acc; simp
  | cons b t ih =>
    intro acc
    calc m ((b :: t).foldl step acc) = m (t.foldl step (step acc b)) := rfl
      _ ≤ m (step acc b) + t.length := ih _
      _ ≤ m acc + 1 + t.length := Nat.add_le_add_right (h acc b) _
      _ = m acc + (b :: t).length := by simp [List.length_cons]; omega

/-! ## Dictionary lemmas -/

theorem dictInsert_mem {α : Type _} {e : String × α} {k : String} {v : α} :
    ∀ {d : List (String × α)}, e ∈ dictInsert k v d → e = (k, v) ∨ e ∈ d := by
  intro d
  induction d with
  | nil => intro h; simp [dictInsert] at h; exact Or.inl h
  | cons kv rest ih =>
    intro h
    by_cases hk : kv.1 = k
    · simp only [dictInsert, if_pos hk] at h
      rcases List.mem_cons.mp h with h1 | h1
      · exact Or.inl h1
      · exact Or.inr (List.mem_cons_of_mem _ h1)
    · simp only [dictInsert, if_neg hk] at h
      rcases List.mem_cons.mp h with h1 | h1
      · exact Or.inr (by rw [h1]; exact List.mem_cons_self _ _)
      · rcases ih h1 with h2 | h2
        · exact Or.inl h2
        · exact Or.inr (List.mem_cons_of_mem _ h2)

theorem dictLookup_dictInsert {α : Type _} (d : List (String × α)) (k : String) (v : α) :
    dictLookup (dictInsert k v d) k = some v := by
  induction d with
  | nil => simp [dictInsert, dictLookup]
  | cons kv rest ih =>
    by_cases hk : kv.1 = k
    · simp [dictInsert, if_pos hk, dictLookup]
    · simp [dictInsert, if_neg hk, dictLookup, hk, ih]

theorem dictLookup_mem_keys {α : Type _} {v : α} :
    ∀ {d : List (String × α)} {k : String}, dictLookup d k = some v → k ∈ dictKeys d := by
  intro d
  induction d with
  | nil => intro k h; simp [dictLookup] at h
  | cons kv rest ih =>
    intro k h
    by_cases hk : kv.1 = k
    · simp [dictKeys, hk]
    · simp only [dictLookup, if_neg hk] at h
      simp [dictKeys] at ih ⊢
      exact Or.inr (ih h)

theorem dictKeys_dictInsert {α : Type _} (k : String) (v : α) :
    ∀ (d : List (String × α)),
      dictKeys (dictInsert k v d) =
        if k ∈ dictKeys d then dictKeys d else dictKeys d ++ [k] := by
  intro d
  induction d with
  | nil => simp [dictInsert, dictKeys]
  | cons kv rest ih =>
    by_cases hk : kv.1 = k
    · simp [dictInsert, if_pos hk, dictKeys, hk]
    · have hne : k ≠ kv.1 := fun h => hk h.symm
      simp only [dictKeys] at ih ⊢
      simp only [dictInsert, if_neg hk, List.map_cons, ih]
      by_cases hm : k ∈ rest.map (fun x => x.1)
      · simp [hm, hne]
      · simp [hm, hne]

theorem dictKeys_nodup_insert {α : Type _} {d : List (String × α)} (k : String) (v : α)
    (h : (dictKeys d).Nodup) : (dictKeys (dictInsert k v d)).Nodup := by
  rw [dictKeys_dictInsert]
  by_cases hm : k ∈ dictKeys d
  · simpa [hm] using h
  · simp only [hm, if_false]
    rw [List.nodup_append]
    exact ⟨h, List.nodup_singleton _, by simpa [List.disjoint_singleton] using hm⟩

theorem dictInsert_length {α : Type _} (k : String) (v : α) :
    ∀ (d : List (String × α)), (dictInsert k v d).length ≤ d.length + 1 := by
  intro d
  induction d with
  | nil => simp [dictInsert]
  | cons kv rest ih =>
    by_cases hk : kv.1 = k
    · simp [dictInsert, if_pos hk]
    · simp only [dictInsert, if_neg hk, List.length_cons]
      omega

theorem countSource_dictInsert (b k v : String) :
    ∀ (d : List (String × String)),
      countSource b (dictInsert k v d) ≤ countSource b d + 1 := by
  intro d
  induction d with
  | nil => by_cases hv : v = b <;> simp [dictInsert, countSource, hv]
  | cons kv rest ih =>
    by_cases hk : kv.1 = k
    · by_cases hv : v = b <;> by_cases hv2 : kv.2 = b <;>
        simp [dictInsert, if_pos hk, countSource, hv, hv2] <;> omega
    · by_cases hv2 : kv.2 = b
      · simpa [dictInsert, if_neg hk, countSource, hv2] using ih
      · simpa [dictInsert, if_neg hk, countSource, hv2] using ih

/-! ## Stage projection lemmas -/

@[simp] theorem deduplicate_papers_papers (env : Env) (st : PState) :
    (deduplicate_papers env st).papers = st.papers := rfl

@[simp] theorem deduplicate_papers_citation_link (env : Env) (st : PState) :
    (deduplicate_papers env st).citation_link = st.citation_link := rfl

@[simp] theorem deduplicate_papers_final_tex_files (env : Env) (st : PState) :
    (deduplicate_papers env st).final_tex_files = st.final_tex_files := rfl

@[simp] theorem deduplicate_papers_trace (env : Env) (st : PState) :
    (deduplicate_papers env st).trace = st.trace ++ [Event.dedupQuery] := rfl

@[simp] theorem download_and_extract_papers (env : Env) (st : PState) :
    (download_and_extract env st).papers = st.papers := rfl

@[simp] theorem download_and_extract_citation_link (env : Env) (st : PState) :
    (download_and_extract env st).citation_link = st.citation_link := rfl

@[simp] theorem download_and_extract_final_tex_files (env : Env) (st : PState) :
    (download_and_extract env st).final_tex_files = st.final_tex_files := rfl

@[simp] theorem download_and_extract_trace (env : Env) (st : PState) :
    (download_and_extract env st).trace = st.trace ++ st.paper_ids.map Event.download := rfl

@[simp] theorem organize_files_papers (env : Env) (st : PState) :
    (organize_files env st).papers = st.papers := rfl

@[simp] theorem organize_files_citation_link (env : Env) (st : PState) :
    (organize_files env st).citation_link = st.citation_link := rfl

@[simp] theorem organize_files_trace (env : Env) (st : PState) :
    (organize_files env st).trace = st.trace := rfl

@[simp] theorem fetch_metadata_citation_link (env : Env) (st : PState) :
    (fetch_metadata env st).citation_link = st.citation_link := rfl

@[simp] theorem fetch_metadata_final_tex_files (env : Env) (st : PState) :
    (fetch_metadata env st).final_tex_files = st.final_tex_files := rfl

@[simp] theorem fetch_metadata_trace (env : Env) (st : PState) :
    (fetch_metadata env st).trace = st.trace := rfl

@[simp] theorem process_files_papers (st : PState) :
    (process_files st).papers = st.papers := rfl

@[simp] theorem process_files_citation_link (st : PState) :
    (process_files st).citation_link = st.citation_link := rfl

@[simp] theorem process_files_final_tex_files (st : PState) :
    (process_files st).final_tex_files = st.final_tex_files := rfl

@[simp] theorem process_files_trace (st : PState) :
    (process_files st).trace = st.trace := rfl

@[simp] theorem parse_papers_citation_link (env : Env) (st : PState) :
    (parse_papers env st).citation_link = st.citation_link := rfl

@[simp] theorem parse_papers_final_tex_files (env : Env) (st : PState) :
    (parse_papers env st).final_tex_files = st.final_tex_files := rfl

@[simp] theorem parse_papers_trace (env : Env) (st : PState) :
    (parse_papers env st).trace = st.trace := rfl

@[simp] theorem enrich_paper_metadata_citation_link (env : Env) (st : PState) :
    (enrich_paper_metadata env st).citation_link = st.citation_link := rfl

@[simp] theorem enrich_paper_metadata_trace (env : Env) (st : PState) :
    (enrich_paper_metadata env st).trace = st.trace := rfl

@[simp] theorem processFrontierPaper_fst_papers (f : String → List CitEntry) (env : Env)
    (o : List String) (k : Nat) (acc : PState × List (String × String)) (p : Paper) :
    (processFrontierPaper f env o k acc p).1.papers = acc.1.papers := rfl

@[simp] theorem processFrontierPaper_fst_final_tex_files (f : String → List CitEntry)
    (env : Env) (o : List String) (k : Nat) (acc : PState × List (String × String))
    (p : Paper) :
    (processFrontierPaper f env o k acc p).1.final_tex_files = acc.1.final_tex_files := rfl

@[simp] theorem processFrontierPaper_fst_trace (f : String → List CitEntry) (env : Env)
    (o : List String) (k : Nat) (acc : PState × List (String × String)) (p : Paper) :
    (processFrontierPaper f env o k acc p).1.trace = acc.1.trace ++ [Event.dedupQuery] := rfl

@[simp] theorem processFrontierPaper_fst_paper_ids (f : String → List CitEntry) (env : Env)
    (o : List String) (k : Nat) (acc : PState × List (String × String)) (p : Paper) :
    (processFrontierPaper f env o k acc p).1.paper_ids = o := rfl

theorem processFrontierPaper_fst_citation_link (f : String → List CitEntry) (env : Env)
    (o : List String) (k : Nat) (acc : PState × List (String × String)) (p : Paper) :
    (processFrontierPaper f env o k acc p).1.citation_link =
      (((survivingCitations f env p.paper_id).take k).foldl
        (processCitation env p.paper_id o) (acc.1.citation_link, acc.2)).1 := rfl

theorem processFrontierPaper_snd (f : String → List CitEntry) (env : Env)
    (o : List String) (k : Nat) (acc : PState × List (String × String)) (p : Paper) :
    (processFrontierPaper f env o k acc p).2 =
      (((survivingCitations f env p.paper_id).take k).foldl
        (processCitation env p.paper_id o) (acc.1.citation_link, acc.2)).2 := rfl

/-! ## Subset and provenance lemmas for the single-paper sub-pipeline -/

theorem download_paper_ids_sub (env : Env) (st : PState) :
    ∀ x ∈ (download_and_extract env st).paper_ids, x ∈ st.paper_ids := by
  intro x hx
  exact (List.mem_filter.mp hx).1

theorem organize_paper_ids_sub (env : Env) (st : PState) :
    ∀ x ∈ (organize_files env st).paper_ids, x ∈ st.paper_ids := by
  intro x hx
  exact (List.mem_filter.mp hx).1

theorem organize_keys_sub (env : Env) (st : PState) :
    ∀ x ∈ dictKeys (organize_files env st).final_tex_files, x ∈ st.paper_ids := by
  have h := foldl_invariant_mem
    (fun acc id => if env.texCount id > 0 then dictInsert id (env.texCount id) acc else acc)
    (fun d => ∀ x ∈ dictKeys d, x ∈ st.paper_ids) st.paper_ids
    (by
      intro acc id hid hacc x hx
      by_cases ht : env.texCount id > 0
      · simp only [if_pos ht] at hx
        rw [dictKeys_dictInsert] at hx
        by_cases hm : id ∈ dictKeys acc
        · exact hacc x (by simpa [hm] using hx)
        · simp only [hm, if_false, List.mem_append, List.mem_singleton] at hx
          rcases hx with hx | hx
          · exact hacc x hx
          · rw [hx]; exact hid
      · simp only [if_neg ht] at hx
        exact hacc x hx)
    [] (by intro x hx; simp [dictKeys] at hx)
  exact h

theorem fetch_metadata_papers_mem (env : Env) (st : PState) :
    ∀ p ∈ (fetch_metadata env st).papers,
      p ∈ st.papers ∨ p.paper_id ∈ dictKeys st.final_tex_files := by
  intro p hp
  have hsplit :
      (fetch_metadata env st).papers =
        st.papers ++ ((st.paper_ids.filterMap
          (fun r => (env.arxivMeta r).map (fun m => (r, m)))).foldl
            (fetchMetaStep env st.final_tex_files) ([], [])).1 := rfl
  rw [hsplit] at hp
  rcases List.mem_append.mp hp with h | h
  · exact Or.inl h
  · right
    have h2 := foldl_invariant (fetchMetaStep env st.final_tex_files)
      (fun acc => ∀ q ∈ acc.1, q.paper_id ∈ dictKeys st.final_tex_files)
      (by
        intro acc rm hacc q hq
        unfold fetchMetaStep at hq
        split at hq
        · exact hacc q hq
        next cnt hlook =>
          split at hq
          · exact hacc q hq
          · rcases List.mem_append.mp hq with h3 | h3
            · exact hacc q h3
            · rw [List.mem_singleton.mp h3]
              exact dictLookup_mem_keys hlook)
      (st.paper_ids.filterMap (fun r => (env.arxivMeta r).map (fun m => (r, m))))
      ([], []) (by intro q hq; simp at hq)
    exact h2 p h

theorem parse_papers_papers_mem (env : Env) (st : PState) :
    ∀ p ∈ (parse_papers env st).papers,
      ∃ q ∈ st.papers, p.paper_id = q.paper_id ∧ ¬ p.sections.isEmpty := by
  intro p hp
  have hsplit : (parse_papers env st).papers = (st.papers.foldl (parseStep env) ([], [])).1 := rfl
  rw [hsplit] at hp
  have h2 := foldl_invariant_mem (parseStep env)
    (fun acc => ∀ q ∈ acc.1, ∃ r ∈ st.papers, q.paper_id = r.paper_id ∧ ¬ q.sections.isEmpty)
    st.papers
    (by
      intro acc b hb hacc q hq
      unfold parseStep at hq
      split at hq
      next secs hsecs =>
        split at hq
        · exact hacc q hq
        next hne =>
          rcases List.mem_append.mp hq with h3 | h3
          · exact hacc q h3
          · rw [List.mem_singleton.mp h3]
            exact ⟨b, hb, rfl, by simpa using hne⟩
      · exact hacc q hq)
    ([], []) (by intro q hq; simp at hq)
  exact h2 p hp

/-! ## Lemmas on the candidate loop and the frontier loop -/

theorem processCitation_link_spec (env : Env) (a : String) (ids : List String)
    (Q : String × String → Prop) (hnew : ∀ x, x ∉ ids → Q (x, a)) :
    ∀ (acc : List (String × String) × List (String × String)) (c : CitEntry),
      (∀ e ∈ acc.1, Q e) → ∀ e ∈ (processCitation env a ids acc c).1, Q e := by
  intro acc c hacc e he
  unfold processCitation at he
  split at he
  next hcond =>
    rcases dictInsert_mem he with h | h
    · rw [h]; exact hnew _ hcond.2
    · exact hacc e h
  split at he
  · exact hacc e he
  split at he
  next s hs =>
    split at he
    next hcond =>
      rcases dictInsert_mem he with h | h
      · rw [h]; exact hnew _ hcond.2
      · exact hacc e h
    · exact hacc e he
  · exact hacc e he

theorem processCitation_cited_spec (env : Env) (a : String) (ids : List String) :
    ∀ (acc : List (String × String) × List (String × String)) (c : CitEntry),
      (∀ x ∈ acc.2, x.1 ∉ ids) →
      ∀ x ∈ (processCitation env a ids acc c).2, x.1 ∉ ids := by
  intro acc c hacc x hx
  unfold processCitation at hx
  split at hx
  next hcond =>
    rcases List.mem_append.mp hx with h | h
    · exact hacc x h
    · rw [List.mem_singleton.mp h]; exact hcond.2
  split at hx
  · exact hacc x hx
  split at hx
  next s hs =>
    split at hx
    next hcond =>
      rcases List.mem_append.mp hx with h | h
      · exact hacc x h
      · rw [List.mem_singleton.mp h]; exact hcond.2
    · exact hacc x hx
  · exact hacc x hx

theorem processCitation_link_length (env : Env) (a : String) (ids : List String)
    (acc : List (String × String) × List (String × String)) (c : CitEntry) :
    (processCitation env a ids acc c).1.length ≤ acc.1.length + 1 := by
  unfold processCitation
  split
  · exact dictInsert_length _ _ _
  split
  · omega
  split
  · split
    · exact dictInsert_length _ _ _
    · omega
  · omega

theorem processCitation_cited_length (env : Env) (a : String) (ids : List String)
    (acc : List (String × String) × List (String × String)) (c : CitEntry) :
    (processCitation env a ids acc c).2.length ≤ acc.2.length + 1 := by
  unfold processCitation
  split
  · simp
  split
  · omega
  split
  · split
    · simp
    · omega
  · omega

theorem processCitation_countSource (env : Env) (a b : String) (ids : List String)
    (acc : List (String × String) × List (String × String)) (c : CitEntry) :
    countSource b (processCitation env a ids acc c).1 ≤ countSource b acc.1 + 1 := by
  unfold processCitation
  split
  · exact countSource_dictInsert _ _ _ _
  split
  · omega
  split
  · split
    · exact countSource_dictInsert _ _ _ _
    · omega
  · omega

theorem processCitation_link_nodup (env : Env) (a : String) (ids : List String)
    (acc : List (String × String) × List (String × String)) (c : CitEntry)
    (h : (dictKeys acc.1).Nodup) :
    (dictKeys (processCitation env a ids acc c).1).Nodup := by
  unfold processCitation
  split
  · exact dictKeys_nodup_insert _ _ h
  split
  · exact h
  split
  · split
    · exact dictKeys_nodup_insert _ _ h
    · exact h
  · exact h

theorem frontierFold_fst_papers (f : String → List CitEntry) (env : Env)
    (o : List String) (k : Nat) :
    ∀ (l : List Paper) (acc : PState × List (String × String)),
      (l.foldl (processFrontierPaper f env o k) acc).1.papers = acc.1.papers := by
  intro l
  induction l with
  | nil => intro acc; rfl
  | cons b t ih => intro acc; rw [List.foldl_cons, ih]; rfl

theorem frontierFold_fst_trace (f : String → List CitEntry) (env : Env)
    (o : List String) (k : Nat) :
    ∀ (l : List Paper) (acc : PState × List (String × String)),
      (l.foldl (processFrontierPaper f env o k) acc).1.trace =
        acc.1.trace ++ List.replicate l.length Event.dedupQuery := by
  intro l
  induction l with
  | nil => intro acc; simp
  | cons b t ih =>
    intro acc
    rw [List.foldl_cons, ih, processFrontierPaper_fst_trace, List.length_cons]
    simp [List.replicate_succ]

theorem frontierFold_cited_fresh (f : String → List CitEntry) (env : Env)
    (o : List String) (k : Nat) (l : List Paper)
    (acc : PState × List (String × String)) (hacc : ∀ x ∈ acc.2, x.1 ∉ o) :
    ∀ x ∈ (l.foldl (processFrontierPaper f env o k) acc).2, x.1 ∉ o := by
  have h := foldl_invariant (processFrontierPaper f env o k)
    (fun acc2 => ∀ x ∈ acc2.2, x.1 ∉ o)
    (by
      intro acc2 b hacc2
      rw [processFrontierPaper_snd]
      exact foldl_invariant (processCitation env b.paper_id o)
        (fun q => ∀ x ∈ q.2, x.1 ∉ o)
        (fun q c hq => processCitation_cited_spec env b.paper_id o q c hq)
        ((survivingCitations f env b.paper_id).take k)
        (acc2.1.citation_link, acc2.2) hacc2)
    l acc hacc
  exact h

theorem frontierFold_link_spec (f : String → List CitEntry) (env : Env)
    (o : List String) (k : Nat) (l : List Paper)
    (acc : PState × List (String × String))
    (Q : String × String → Prop)
    (hacc : ∀ e ∈ acc.1.citation_link, Q e)
    (hnew : ∀ (x : String) (b : Paper), b ∈ l → x ∉ o → Q (x, b.paper_id)) :
    ∀ e ∈ (l.foldl (processFrontierPaper f env o k) acc).1.citation_link, Q e := by
  have h := foldl_invariant_mem (processFrontierPaper f env o k)
    (fun acc2 => ∀ e ∈ acc2.1.citation_link, Q e) l
    (by
      intro acc2 b hb hacc2
      rw [processFrontierPaper_fst_citation_link]
      exact foldl_invariant (processCitation env b.paper_id o)
        (fun q => ∀ e ∈ q.1, Q e)
        (fun q c hq => processCitation_link_spec env b.paper_id o Q
          (fun x hx => hnew x b hb hx) q c hq)
        ((survivingCitations f env b.paper_id).take k)
        (acc2.1.citation_link, acc2.2) hacc2)
    acc hacc
  exact h

theorem frontierFold_link_nodup (f : String → List CitEntry) (env : Env)
    (o : List String) (k : Nat) (l : List Paper)
    (acc : PState × List (String × String))
    (hacc : (dictKeys acc.1.citation_link).Nodup) :
    (dictKeys (l.foldl (processFrontierPaper f env o k) acc).1.citation_link).Nodup := by
  have h := foldl_invariant (processFrontierPaper f env o k)
    (fun acc2 => (dictKeys acc2.1.citation_link).Nodup)
    (by
      intro acc2 b hacc2
      rw [processFrontierPaper_fst_citation_link]
      exact foldl_invariant (processCitation env b.paper_id o)
        (fun q => (dictKeys q.1).Nodup)
        (fun q c hq => processCitation_link_nodup env b.paper_id o q c hq)
        ((survivingCitations f env b.paper_id).take k)
        (acc2.1.citation_link, acc2.2) hacc2)
    l acc hacc
  exact h

/-! ## Lemmas on the hop and the full run -/

theorem hopSub_citation_link (env : Env) (s : PState) (c : List (String × String)) :
    (hopSub env s c).citation_link = s.citation_link := by
  unfold hopSub
  split
  · rfl
  · simp

theorem hopSub_trace (env : Env) (s : PState) (c : List (String × String)) :
    (hopSub env s c).trace =
      if c.isEmpty then s.trace
      else s.trace ++ (c.map (·.1)).map Event.download := by
  unfold hopSub
  split
  next h => simp [h]
  next h => simp [h]

theorem hopSub_papers_mem (env : Env) (s : PState) (c : List (String × String))
    (hs : s.papers = []) :
    ∀ p ∈ (hopSub env s c).papers, p.paper_id ∈ c.map (·.1) := by
  intro p hp
  unfold hopSub at hp
  split at hp
  · rw [hs] at hp; simp at hp
  · rcases parse_papers_papers_mem env _ p hp with ⟨q, hq, hid, hsec⟩
    rw [process_files_papers] at hq
    rcases fetch_metadata_papers_mem env _ q hq with h1 | h1
    · rw [organize_files_papers, download_and_extract_papers] at h1
      simp only [hs] at h1
      simp at h1
    · have h2 := organize_keys_sub env _ _ h1
      have h3 := download_paper_ids_sub env _ _ h2
      rw [hid]
      exact h3

theorem hopSub_sections (env : Env) (s : PState) (c : List (String × String))
    (hs : ∀ p ∈ s.papers, ¬ p.sections.isEmpty) :
    ∀ p ∈ (hopSub env s c).papers, ¬ p.sections.isEmpty := by
  intro p hp
  unfold hopSub at hp
  split at hp
  · exact hs p hp
  · rcases parse_papers_papers_mem env _ p hp with ⟨q, hq, hid, hsec⟩
    exact hsec

theorem processLinkedPapers_papers (f : String → List CitEntry) (env : Env)
    (st : PState) (k : Nat) :
    (processLinkedPapers f env st k).papers =
      st.papers ++
        (hopSub env
          { (st.papers.foldl (processFrontierPaper f env st.paper_ids k) (st, [])).1 with
              papers := [] }
          (st.papers.foldl (processFrontierPaper f env st.paper_ids k) (st, [])).2).papers := by
  have h : (processLinkedPapers f env st k).papers =
      (st.papers.foldl (processFrontierPaper f env st.paper_ids k) (st, [])).1.papers ++
        (hopSub env
          { (st.papers.foldl (processFrontierPaper f env st.paper_ids k) (st, [])).1 with
              papers := [] }
          (st.papers.foldl (processFrontierPaper f env st.paper_ids k) (st, [])).2).papers := rfl
  rw [h, frontierFold_fst_papers]

theorem processLinkedPapers_citation_link (f : String → List CitEntry) (env : Env)
    (st : PState) (k : Nat) :
    (processLinkedPapers f env st k).citation_link =
      (st.papers.foldl (processFrontierPaper f env st.paper_ids k) (st, [])).1.citation_link := by
  have h : (processLinkedPapers f env st k).citation_link =
      (hopSub env
        { (st.papers.foldl (processFrontierPaper f env st.paper_ids k) (st, [])).1 with
            papers := [] }
        (st.papers.foldl (processFrontierPaper f env st.paper_ids k) (st, [])).2).citation_link :=
    rfl
  rw [h, hopSub_citation_link]

theorem processLinkedPapers_trace (f : String → List CitEntry) (env : Env)
    (st : PState) (k : Nat) :
    (processLinkedPapers f env st k).trace =
      st.trace ++ List.replicate st.papers.length Event.dedupQuery ++
        (if (st.papers.foldl (processFrontierPaper f env st.paper_ids k) (st, [])).2.isEmpty
          then []
          else (((st.papers.foldl (processFrontierPaper f env st.paper_ids k)
            (st, [])).2.map (·.1)).map Event.download)) := by
  have h : (processLinkedPapers f env st k).trace =
      (hopSub env
        { (st.papers.foldl (processFrontierPaper f env st.paper_ids k) (st, [])).1 with
            papers := [] }
        (st.papers.foldl (processFrontierPaper f env st.paper_ids k) (st, [])).2).trace := rfl
  rw [h, hopSub_trace]
  split
  · rw [List.append_nil]
    exact frontierFold_fst_trace f env st.paper_ids k st.papers (st, [])
  · have h2 : ({ (st.papers.foldl (processFrontierPaper f env st.paper_ids k) (st, [])).1 with
        papers := ([] : List Paper) } : PState).trace =
        (st.papers.foldl (processFrontierPaper f env st.paper_ids k) (st, [])).1.trace := rfl
    rw [h2, frontierFold_fst_trace]

theorem hop_new_papers (f : String → List CitEntry) (env : Env) (st : PState) (k : Nat) :
    ∀ p ∈ (processLinkedPapers f env st k).papers,
      p ∈ st.papers ∨ p.paper_id ∉ st.paper_ids := by
  intro p hp
  rw [processLinkedPapers_papers] at hp
  rcases List.mem_append.mp hp with h | h
  · exact Or.inl h
  · right
    have hid := hopSub_papers_mem env _ _ rfl p h
    rcases List.mem_map.mp hid with ⟨x, hx, hxe⟩
    have hfresh := frontierFold_cited_fresh f env st.paper_ids k st.papers (st, [])
      (by intro x2 hx2; simp at hx2) x hx
    rw [← hxe]
    exact hfresh

theorem hop_new_edges (f : String → List CitEntry) (env : Env) (st : PState) (k : Nat) :
    ∀ e ∈ (processLinkedPapers f env st k).citation_link,
      e ∈ st.citation_link ∨ (e.1 ∉ st.paper_ids ∧ e.2 ∈ st.papers.map Paper.paper_id) := by
  intro e he
  rw [processLinkedPapers_citation_link] at he
  exact frontierFold_link_spec f env st.paper_ids k st.papers (st, [])
    (fun e2 => e2 ∈ st.citation_link ∨
      (e2.1 ∉ st.paper_ids ∧ e2.2 ∈ st.papers.map Paper.paper_id))
    (fun e2 he2 => Or.inl he2)
    (fun x b hb hx => Or.inr ⟨hx, List.mem_map_of_mem Paper.paper_id hb⟩) e he

theorem hop_sections (f : String → List CitEntry) (env : Env) (st : PState) (k : Nat)
    (h : ∀ p ∈ st.papers, ¬ p.sections.isEmpty) :
    ∀ p ∈ (processLinkedPapers f env st k).papers, ¬ p.sections.isEmpty := by
  intro p hp
  rw [processLinkedPapers_papers] at hp
  rcases List.mem_append.mp hp with h1 | h1
  · exact h p h1
  · exact hopSub_sections env _ _ (by intro q hq; simp at hq) p h1

theorem hop_link_nodup (f : String → List CitEntry) (env : Env) (st : PState) (k : Nat)
    (h : (dictKeys st.citation_link).Nodup) :
    (dictKeys (processLinkedPapers f env st k).citation_link).Nodup := by
  rw [processLinkedPapers_citation_link]
  exact frontierFold_link_nodup f env st.paper_ids k st.papers (st, []) h

theorem enrichKeywords_sections (m : EnrichResult) (p : Paper) :
    (enrichKeywords m p).sections = p.sections := by
  unfold enrichKeywords
  split
  · rfl
  · rfl

theorem enrichDomain_sections (m : EnrichResult) (p : Paper) :
    (enrichDomain m p).sections = p.sections := by
  unfold enrichDomain
  split
  · rfl
  · rfl

theorem enrichSummary_sections (m : EnrichResult) (p : Paper) :
    (enrichSummary m p).sections = p.sections := by
  unfold enrichSummary
  split
  · rfl
  · rfl

theorem enrichOne_sections (env : Env) (p : Paper) :
    (enrichOne env p).sections = p.sections := by
  unfold enrichOne
  split
  · rfl
  split
  · rfl
  · rw [enrichSummary_sections, enrichDomain_sections, enrichKeywords_sections]

theorem run_pipeline_eq (env : Env) (k : Nat) :
    run_pipeline env k =
      enrich_paper_metadata env (process_citing_papers env (process_cited_papers env
        (parse_papers env (process_files (fetch_metadata env (organize_files env
          (download_and_extract env (deduplicate_papers env
            { paper_ids := env.seed_ids, papers := [], citation_link := [],
              final_tex_files := [], trace := [] })))))) k) k) := rfl

theorem run_pipeline_sections (env : Env) (k : Nat) :
    ∀ p ∈ (run_pipeline env k).papers, ¬ p.sections.isEmpty := by
  rw [run_pipeline_eq]
  intro p hp
  have hp2 : p ∈ (process_citing_papers env (process_cited_papers env
      (parse_papers env (process_files (fetch_metadata env (organize_files env
        (download_and_extract env (deduplicate_papers env
          { paper_ids := env.seed_ids, papers := [], citation_link := [],
            final_tex_files := [], trace := [] })))))) k) k).papers.map (enrichOne env) := hp
  rcases List.mem_map.mp hp2 with ⟨q, hq, hqe⟩
  rw [← hqe, enrichOne_sections]
  have hgood : ∀ r ∈ (parse_papers env (process_files (fetch_metadata env (organize_files env
      (download_and_extract env (deduplicate_papers env
        { paper_ids := env.seed_ids, papers := [], citation_link := [],
          final_tex_files := [], trace := [] })))))).papers, ¬ r.sections.isEmpty := by
    intro r hr
    rcases parse_papers_papers_mem env _ r hr with ⟨w, hw, hid, hsec⟩
    exact hsec
  unfold process_citing_papers process_cited_papers at hq
  exact hop_sections _ env _ k (hop_sections _ env _ k hgood) q hq

theorem run_pipeline_link_nodup (env : Env) (k : Nat) :
    (dictKeys (run_pipeline env k).citation_link).Nodup := by
  rw [run_pipeline_eq, enrich_paper_metadata_citation_link]
  unfold process_citing_papers process_cited_papers
  apply hop_link_nodup
  apply hop_link_nodup
  simp [dictKeys]

theorem retryLoop_error {α : Type _} (attempts : Nat → Except S2Error α)
    (h : ∀ n, ∃ e, attempts n = Except.error e) :
    ∀ l : List Nat, l ≠ [] → ∃ e, retryLoop attempts l = Except.error e := by
  intro l
  induction l with
  | nil => intro hne; exact absurd rfl hne
  | cons a t ih =>
    intro _
    rcases h a with ⟨e, he⟩
    by_cases ht : t = []
    · subst ht
      exact ⟨e, by simp [retryLoop, he]⟩
    · rcases ih ht with ⟨e2, he2⟩
      refine ⟨e2, ?_⟩
      have hne : t.isEmpty = false := by
        cases t with
        | nil => exact absurd rfl ht
        | cons x xs => rfl
      simp [retryLoop, he, hne, he2]

theorem retry_request_error {α : Type _} (attempts : Nat → Except S2Error α)
    (h : ∀ n, ∃ e, attempts n = Except.error e) :
    ∃ e, retry_request attempts 5 = Except.error e := by
  unfold retry_request
  exact retryLoop_error attempts h (List.range' 1 5) (by decide)

/-! ## Claims -/

/-- Claim C1, corrected.  The claim asserts that the output paper set of
run_pipeline never contains two records with the same version-stripped
id.  The code only guards a candidate against the original frontier id
list, so the amended invariant proved here is: every paper admitted by
an expansion hop (backward or forward) has an id outside the hop-start
paper id list, while distinctness among the admitted papers themselves
does not hold (see the counterexample, where one paper is admitted by
both directions). -/
theorem C1_expansion_ids_avoid_frontier_ids (env : Env) (st : PState) (k : Nat) :
    (∀ p ∈ (process_cited_papers env st k).papers,
        p ∈ st.papers ∨ p.paper_id ∉ st.paper_ids) ∧
    (∀ p ∈ (process_citing_papers env st k).papers,
        p ∈ st.papers ∨ p.paper_id ∉ st.paper_ids) := by
  unfold process_cited_papers process_citing_papers
  exact ⟨hop_new_papers (envCitedPapers env) env st k,
    hop_new_papers (envCitingPapers env) env st k⟩

/-- Witness for claim C1: the theorem applied to the happy-path world
with one seed paper. -/
theorem C1_expansion_ids_avoid_frontier_ids_witness :
    paperA ∈ (process_cited_papers baseEnv stOneSeed 1).papers ∧
      (paperA ∈ stOneSeed.papers ∨ paperA.paper_id ∉ stOneSeed.paper_ids) :=
  ⟨by decide,
    (C1_expansion_ids_avoid_frontier_ids baseEnv stOneSeed 1).1 paperA (by decide)⟩

/-- Counterexample for claim C1 as stated: in the world where seed A
cites X and X cites A, the run admits X during the backward hop and
again during the forward hop, so the saved paper records carry the id X
twice. -/
theorem C1_counterexample :
    ¬ ((run_pipeline envDupRun 1).papers.map
        (fun p => stripVersion p.paper_id)).Nodup := by decide

/-- Claim C2, corrected.  The claim asserts that no recorded edge has
equal source and target.  This holds whenever every frontier paper id
lies in the hop-start id list (true for the backward hop of a run,
whose frontier is the seed set), because a candidate is only accepted
when its id is outside that list.  It fails for forward-hop frontier
papers admitted during the backward hop; see the counterexample. -/
theorem C2_no_self_edges_when_frontier_ids_listed (f : String → List CitEntry)
    (env : Env) (st : PState) (k : Nat)
    (hf : ∀ p ∈ st.papers, p.paper_id ∈ st.paper_ids)
    (hcl : ∀ e ∈ st.citation_link, e.1 ≠ e.2) :
    ∀ e ∈ (processLinkedPapers f env st k).citation_link, e.1 ≠ e.2 := by
  intro e he
  rcases hop_new_edges f env st k e he with h | ⟨h1, h2⟩
  · exact hcl e h
  · rcases List.mem_map.mp h2 with ⟨b, hb, hbe⟩
    have he2 : e.2 ∈ st.paper_ids := by rw [← hbe]; exact hf b hb
    intro hcontra
    rw [hcontra] at h1
    exact h1 he2

/-- Witness for claim C2: the theorem applied to the one-seed state,
whose frontier paper id is listed and whose edge map is empty. -/
theorem C2_no_self_edges_when_frontier_ids_listed_witness :
    (∀ p ∈ stOneSeed.papers, p.paper_id ∈ stOneSeed.paper_ids) ∧
      (∀ e ∈ stOneSeed.citation_link, e.1 ≠ e.2) ∧
      ∀ e ∈ (processLinkedPapers (envCitedPapers baseEnv) baseEnv
        stOneSeed 1).citation_link, e.1 ≠ e.2 :=
  ⟨by decide, by decide,
    C2_no_self_edges_when_frontier_ids_listed (envCitedPapers baseEnv) baseEnv
      stOneSeed 1 (by decide) (by decide)⟩

/-- Counterexample for claim C2 as stated: in the world where A cites X
and the provider lists X among the papers citing X, the forward hop
records the edge with source and target both X, because the non-seed
frontier paper X is absent from the restored seed id list. -/
theorem C2_counterexample :
    ¬ (∀ e ∈ (run_pipeline envSelfEdge 1).citation_link, e.1 ≠ e.2) := by decide

/-- Claim C3, corrected.  The claim asserts that an edge is recorded
only for candidates that pass document fetch, extraction and the
non-empty-sections check, and that every edge target appears in the
output paper set.  In the code the edge is written at candidate
acceptance time, before any validation, and survives a later failure.
The amended statement proved here: every edge of a hop is either
pre-existing or joins a frontier paper (stored value) to an accepted
candidate id outside the hop-start id list; nothing ties the target to
the surviving paper set, and the counterexample shows an edge whose
target paper was dropped by a failed download. -/
theorem C3_edges_recorded_at_acceptance (env : Env) (st : PState) (k : Nat) :
    (∀ e ∈ (process_cited_papers env st k).citation_link,
        e ∈ st.citation_link ∨
          (e.2 ∈ st.papers.map Paper.paper_id ∧ e.1 ∉ st.paper_ids)) ∧
    (∀ e ∈ (process_citing_papers env st k).citation_link,
        e ∈ st.citation_link ∨
          (e.2 ∈ st.papers.map Paper.paper_id ∧ e.1 ∉ st.paper_ids)) := by
  unfold process_cited_papers process_citing_papers
  constructor
  · intro e he
    rcases hop_new_edges (envCitedPapers env) env st k e he with h | ⟨h1, h2⟩
    · exact Or.inl h
    · exact Or.inr ⟨h2, h1⟩
  · intro e he
    rcases hop_new_edges (envCitingPapers env) env st k e he with h | ⟨h1, h2⟩
    · exact Or.inl h
    · exact Or.inr ⟨h2, h1⟩

/-- Witness for claim C3: in the dropped-target world the backward hop
of the one-seed state records the edge from A to X, and the theorem
classifies it. -/
theorem C3_edges_recorded_at_acceptance_witness :
    ("X", "A") ∈ (process_cited_papers envDroppedTarget stOneSeed 1).citation_link ∧
      (("X", "A") ∈ stOneSeed.citation_link ∨
        (("X", "A").2 ∈ stOneSeed.papers.map Paper.paper_id ∧
          ("X", "A").1 ∉ stOneSeed.paper_ids)) :=
  ⟨by decide,
    (C3_edges_recorded_at_acceptance envDroppedTarget stOneSeed 1).1
      ("X", "A") (by decide)⟩

/-- Counterexample for claim C3 as stated: the run over the
dropped-target world keeps the edge from A to X in the saved
citation-link record although X failed its download and is absent from
the output paper set. -/
theorem C3_counterexample :
    ("X", "A") ∈ (run_pipeline envDroppedTarget 1).citation_link ∧
      "X" ∉ (run_pipeline envDroppedTarget 1).papers.map Paper.paper_id := by decide

/-- Claim C4, confirmed.  Processing one frontier paper with extension
budget k accepts at most k new entries into the citation-link map, at
most k new edges whose stored source is that frontier paper, and at
most k new accepted candidates, no matter how many citation entries the
provider returns. -/
theorem C4_budget_per_frontier_paper (f : String → List CitEntry) (env : Env)
    (o : List String) (k : Nat) (acc : PState × List (String × String)) (p : Paper) :
    (processFrontierPaper f env o k acc p).1.citation_link.length ≤
        acc.1.citation_link.length + k ∧
      countSource p.paper_id (processFrontierPaper f env o k acc p).1.citation_link ≤
        countSource p.paper_id acc.1.citation_link + k ∧
      (processFrontierPaper f env o k acc p).2.length ≤ acc.2.length + k := by
  have hlen : ((survivingCitations f env p.paper_id).take k).length ≤ k := by
    rw [List.length_take]
    exact min_le_left _ _
  refine ⟨?_, ?_, ?_⟩
  · rw [processFrontierPaper_fst_citation_link]
    exact le_trans
      (foldl_growth (fun q => q.1.length) (processCitation env p.paper_id o)
        (fun q c => processCitation_link_length env p.paper_id o q c)
        ((survivingCitations f env p.paper_id).take k) (acc.1.citation_link, acc.2))
      (Nat.add_le_add_left hlen _)
  · rw [processFrontierPaper_fst_citation_link]
    exact le_trans
      (foldl_growth (fun q => countSource p.paper_id q.1) (processCitation env p.paper_id o)
        (fun q c => processCitation_countSource env p.paper_id p.paper_id o q c)
        ((survivingCitations f env p.paper_id).take k) (acc.1.citation_link, acc.2))
      (Nat.add_le_add_left hlen _)
  · rw [processFrontierPaper_snd]
    exact le_trans
      (foldl_growth (fun q => q.2.length) (processCitation env p.paper_id o)
        (fun q c => processCitation_cited_length env p.paper_id o q c)
        ((survivingCitations f env p.paper_id).take k) (acc.1.citation_link, acc.2))
      (Nat.add_le_add_left hlen _)

/-- Claim C5, corrected.  The claim asserts that one hop issues exactly
one bulk dedup query before any downloads, and never fetches a shared
candidate twice.  The code issues one query per frontier paper, all of
them before the downloads of the hop; the amended ordering statement is
proved here, and the counterexample shows two queries and a double
download of a shared candidate in one hop. -/
theorem C5_dedup_once_per_frontier_paper_before_downloads (f : String → List CitEntry)
    (env : Env) (st : PState) (k : Nat) :
    ∃ dls : List Event,
      (processLinkedPapers f env st k).trace =
        st.trace ++ List.replicate st.papers.length Event.dedupQuery ++ dls ∧
      ∀ e ∈ dls, ∃ id, e = Event.download id := by
  refine ⟨_, processLinkedPapers_trace f env st k, ?_⟩
  intro e he
  by_cases hc : (st.papers.foldl (processFrontierPaper f env st.paper_ids k)
      (st, [])).2.isEmpty
  · rw [if_pos hc] at he
    simp at he
  · rw [if_neg hc] at he
    rcases List.mem_map.mp he with ⟨x, hx, hxe⟩
    exact ⟨x, hxe.symm⟩

/-- Counterexample for claim C5 as stated: with a frontier of two
papers that both cite the new paper X, one backward hop issues two
dedup-gate queries, and downloads X twice. -/
theorem C5_counterexample :
    (process_cited_papers envSharedCandidate stTwoSeeds 1).trace.count
        Event.dedupQuery = 2 ∧
      (process_cited_papers envSharedCandidate stTwoSeeds 1).trace.count
        (Event.download "X") = 2 := by decide

/-- Claim C6, corrected.  The claim asserts that the forward direction
inverts the stored orientation, recording the newly admitted citing
paper as the edge source and the frontier paper as the target.  In the
code both directions execute the same body (processLinkedPapers) and
both store the mapping from the new paper id to the frontier paper id,
so under the reading of the map as target to source the frontier paper
is the source in both directions; the counterexample exhibits a
forward-only run whose single entry is keyed by the citing paper. -/
theorem C6_forward_edges_store_frontier_as_source (env : Env) (st : PState) (k : Nat) :
    process_cited_papers env st k = processLinkedPapers (envCitedPapers env) env st k ∧
      process_citing_papers env st k =
        processLinkedPapers (envCitingPapers env) env st k ∧
      ∀ e ∈ (process_citing_papers env st k).citation_link,
        e ∈ st.citation_link ∨
          (e.2 ∈ st.papers.map Paper.paper_id ∧ e.1 ∉ st.paper_ids) := by
  refine ⟨rfl, rfl, ?_⟩
  intro e he
  rcases hop_new_edges (envCitingPapers env) env st k e he with h | ⟨h1, h2⟩
  · exact Or.inl h
  · exact Or.inr ⟨h2, h1⟩

/-- Witness for claim C6: the forward hop over the forward-edge world
records the entry keyed by the citing paper Y with the frontier paper A
as its stored value, and the theorem classifies it. -/
theorem C6_forward_edges_store_frontier_as_source_witness :
    ("Y", "A") ∈ (process_citing_papers envForwardEdge stOneSeed 1).citation_link ∧
      (("Y", "A") ∈ stOneSeed.citation_link ∨
        (("Y", "A").2 ∈ stOneSeed.papers.map Paper.paper_id ∧
          ("Y", "A").1 ∉ stOneSeed.paper_ids)) :=
  ⟨by decide,
    (C6_forward_edges_store_frontier_as_source envForwardEdge stOneSeed 1).2.2
      ("Y", "A") (by decide)⟩

/-- Counterexample for claim C6 as stated: in the forward-edge world
the whole run produces exactly one entry, keyed by the citing paper Y
with value the frontier paper A, and no entry keyed by the frontier
paper, contradicting the claimed inverted orientation in which the
frontier paper would be the target key. -/
theorem C6_counterexample :
    (run_pipeline envForwardEdge 1).citation_link = [("Y", "A")] ∧
      dictLookup (run_pipeline envForwardEdge 1).citation_link "A" = none := by decide

/-- Claim C7, corrected.  The claim asserts that every persisted paper
record has non-empty sections, title and abstract.  The sections part
holds: every saved paper passed the parse stage.  The title and
abstract parts fail: the admission check tests the arXiv title, which
the provider metadata then overwrites, and never tests the abstract
(see the counterexample with an empty stored title and abstract). -/
theorem C7_saved_papers_have_sections (env : Env) (k : Nat) (p : Paper)
    (h : Record.paper p ∈ saved_records env k) : ¬ p.sections.isEmpty := by
  unfold saved_records at h
  rcases List.mem_append.mp h with h1 | h1
  · rcases List.mem_map.mp h1 with ⟨q, hq, hqe⟩
    have hsec := run_pipeline_sections env k q hq
    injection hqe with hqe2
    rw [← hqe2]
    exact hsec
  · rw [List.mem_singleton] at h1
    exact Record.noConfusion h1

/-- Witness for claim C7: the record of seed A saved by the happy-path
run has non-empty sections. -/
theorem C7_saved_papers_have_sections_witness :
    Record.paper paperRunA ∈ saved_records baseEnv 1 ∧
      ¬ paperRunA.sections.isEmpty :=
  ⟨by decide, C7_saved_papers_have_sections baseEnv 1 paperRunA (by decide)⟩

/-- Counterexample for claim C7 as stated: the empty-fields world
persists a paper record whose title and abstract are both empty. -/
theorem C7_counterexample :
    Record.paper paperEmptyA ∈ saved_records envEmptyFields 1 ∧
      paperEmptyA.title = "" ∧ paperEmptyA.abstract = "" := by decide

/-- Claim C8, confirmed.  The three bibliography tiers are tried in
order and the first tier yielding at least one citation wins: when tier
one yields zero entries and tier two yields at least one, the result is
exactly the tier-two entries, and the tier-three inline scan is never
consulted (the result does not depend on the inline bibliography
argument). -/
theorem C8_first_nonempty_tier_wins (files : List CitFile)
    (inline : Option (List InlineEntry))
    (h1 : tier1Citations files = []) (h2 : tier2Citations files ≠ []) :
    extract_citations files inline = tier2Citations files ∧
      ∀ inline2, extract_citations files inline2 = extract_citations files inline := by
  have h3 : (tier2Citations files).isEmpty = false := by
    cases hcase : tier2Citations files with
    | nil => exact absurd hcase h2
    | cons x xs => rfl
  have key : ∀ il, extract_citations files il = tier2Citations files := by
    intro il
    simp [extract_citations, h1, h3]
  exact ⟨key inline, fun il2 => (key il2).trans (key inline).symm⟩

/-- Witness for claim C8: a bib file whose single entry has a blank
title (tier one yields nothing) next to a bbl file with one entry; the
extraction returns exactly the tier-two entry whatever the inline
bibliography holds. -/
theorem C8_first_nonempty_tier_wins_witness :
    tier1Citations filesTier2 = [] ∧ tier2Citations filesTier2 ≠ [] ∧
      (extract_citations filesTier2 inlineTier3 = tier2Citations filesTier2 ∧
        ∀ inline2, extract_citations filesTier2 inline2 =
          extract_citations filesTier2 inlineTier3) :=
  ⟨by decide, by decide,
    C8_first_nonempty_tier_wins filesTier2 inlineTier3 (by decide) (by decide)⟩

/-- Claim C9, confirmed.  When every retry attempt of the underlying
request fails, the metadata fetch returns an empty dictionary and the
citation-list fetches return empty data, and no exception reaches the
caller (all four functions are total and produce their empty
defaults). -/
theorem C9_exhausted_retries_fail_soft (aMeta : Nat → Except S2Error S2MetaJson)
    (aData : Nat → Except S2Error S2PaperJson)
    (hMeta : ∀ n, ∃ e, aMeta n = Except.error e)
    (hData : ∀ n, ∃ e, aData n = Except.error e) :
    get_paper_metadata aMeta = none ∧ fetch_paper_data aData = none ∧
      get_cited_papers aData = [] ∧ get_citing_papers aData = [] := by
  rcases retry_request_error aMeta hMeta with ⟨e1, he1⟩
  rcases retry_request_error aData hData with ⟨e2, he2⟩
  have hfd : fetch_paper_data aData = none := by
    unfold fetch_paper_data
    rw [he2]
  refine ⟨?_, hfd, ?_, ?_⟩
  · unfold get_paper_metadata
    rw [he1]
  · unfold get_cited_papers
    rw [hfd]
  · unfold get_citing_papers
    rw [hfd]

/-- Witness for claim C9: the theorem applied to oracles whose every
attempt raises a request exception. -/
theorem C9_exhausted_retries_fail_soft_witness :
    (∀ n, ∃ e, failAttemptsMeta n = Except.error e) ∧
      (∀ n, ∃ e, failAttemptsData n = Except.error e) ∧
      (get_paper_metadata failAttemptsMeta = none ∧
        fetch_paper_data failAttemptsData = none ∧
        get_cited_papers failAttemptsData = [] ∧
        get_citing_papers failAttemptsData = []) :=
  ⟨fun _ => ⟨S2Error.requestException, rfl⟩,
    fun _ => ⟨S2Error.requestException, rfl⟩,
    C9_exhausted_retries_fail_soft failAttemptsMeta failAttemptsData
      (fun _ => ⟨S2Error.requestException, rfl⟩)
      (fun _ => ⟨S2Error.requestException, rfl⟩)⟩

/-- Claim C10, confirmed.  The citation-link map is keyed by the newly
admitted paper id: for every run the keys of the saved citation-link
record are pairwise distinct (one frontier source per new paper id),
and the dictionary assignment overwrites, so a later admission of the
same id replaces the earlier source. -/
theorem C10_one_source_per_new_paper (env : Env) (k : Nat) :
    (dictKeys (run_pipeline env k).citation_link).Nodup ∧
      ∀ (cl : List (String × String)) (t s : String),
        dictLookup (dictInsert t s cl) t = some s :=
  ⟨run_pipeline_link_nodup env k, fun cl t s => dictLookup_dictInsert cl t s⟩

end Ingestion
